import Mathlib

/-!
Verification of the graph-structure core of the `pygsp` package
(`pygsp/graphs/graph.py`), shallowly embedded in Lean 4.

Modelling conventions:
* A weight matrix is a total function `Fin n → Fin n → ℚ`; the Python code
  works on square scipy sparse matrices of floats, whose exact arithmetic on
  the inputs considered here is modelled by rationals.
* The adjacency matrix `A = W > 0` is a function `Fin n → Fin n → Bool`.
* Python exceptions are modelled by `Except GErr` (for one-shot checks) or
  by the `Res` result type (for the traversal loops, which additionally can
  run out of fuel: every `while` loop of the source is embedded as a
  fuel-indexed recursion, `Res.fuelOut` standing for a loop that was not
  given enough fuel; no claim below depends on the fuel running out).
* `numpy` index errors (indexing `visited[v]` with `v` out of range) are
  `GErr.indexError`; `NotImplementedError` is `GErr.notImplemented`.
* Python `set.pop()` removes an arbitrary element; the embedding keeps the
  pending set as a duplicate-free `List ℕ` and pops its head.  None of the
  statements proved here depend on the pop order.
* `np.sqrt` / `np.power(·, -0.5)` on floats have no exact rational
  counterpart; the embedding takes the square-root function as an explicit
  parameter `sqrt : ℚ → ℚ`, and every theorem below holds for an arbitrary
  such parameter.
-/

/-- Errors raised by the graph core: `notImplemented` models Python's
`NotImplementedError`, `indexError` models a numpy out-of-bounds index. -/
inductive GErr : Type
  | notImplemented : GErr
  | indexError : GErr
deriving DecidableEq, Repr

/-- Result of a fuel-indexed embedding of a `while` loop: a value, an
exception, or exhaustion of the fuel. -/
inductive Res (α : Type) : Type
  | ok : α → Res α
  | err : GErr → Res α
  | fuelOut : Res α
deriving DecidableEq, Repr

/-- The two Laplacian kinds accepted by `compute_laplacian`. -/
inductive LapType : Type
  | combinatorial : LapType
  | normalized : LapType
deriving DecidableEq, Repr

/-- `is_directed` (graph.py line 500): the graph is directed iff
`np.abs(W - W.T).sum() != 0`, an exact, tolerance-free test. -/
def is_directed {n : ℕ} (W : Fin n → Fin n → ℚ) : Bool :=
  decide ((∑ i, ∑ j, |W i j - W j i|) ≠ 0)

/-- The adjacency matrix `A = W > 0` (graph.py line 90). -/
def adjacency {n : ℕ} (W : Fin n → Fin n → ℚ) : Fin n → Fin n → Bool :=
  fun i j => decide (0 < W i j)

/-- `compute_laplacian` (graph.py lines 616-636).  Branches on directedness;
directed graphs support only the combinatorial kind.  `sparse.diags(v, 0)`
becomes the `if i = j then _ else 0` diagonal matrix, `W.sum(0)` the column
sums, `W.sum(1)` the row sums; `np.power(s, -0.5)` is `(sqrt s)⁻¹` for the
square-root parameter. -/
def compute_laplacian {n : ℕ} (sqrt : ℚ → ℚ) (W : Fin n → Fin n → ℚ)
    (lap_type : LapType) : Except GErr (Fin n → Fin n → ℚ) :=
  if is_directed W then
    match lap_type with
    | .combinatorial =>
        .ok (fun i j =>
          (1 / 2) * (((if i = j then ∑ k, W k i else 0)
            + (if i = j then ∑ k, W i k else 0)) - W i j - W j i))
    | .normalized => .error .notImplemented
  else
    match lap_type with
    | .combinatorial =>
        .ok (fun i j => (if i = j then ∑ k, W i k else 0) - W i j)
    | .normalized =>
        let d : Fin n → ℚ := fun i => (sqrt (∑ k, W i k))⁻¹
        .ok (fun i j => (if i = j then 1 else 0) - d i * W i j * d j)

/-- The out-degree diagonal `D_out = diag(colSum(W))`, as the spec writes it. -/
def d_out {n : ℕ} (W : Fin n → Fin n → ℚ) : Fin n → Fin n → ℚ :=
  fun i j => if i = j then ∑ k, W k i else 0

/-- The in-degree diagonal `D_in = diag(rowSum(W))`, as the spec writes it. -/
def d_in {n : ℕ} (W : Fin n → Fin n → ℚ) : Fin n → Fin n → ℚ :=
  fun i j => if i = j then ∑ k, W i k else 0

/-- A symmetric weight matrix has `is_directed = false`: every term of the
asymmetry sum vanishes. -/
theorem is_directed_eq_false_of_symm {n : ℕ} {W : Fin n → Fin n → ℚ}
    (hsym : ∀ i j, W i j = W j i) : is_directed W = false := by
  have hz : (∑ i, ∑ j, |W i j - W j i|) = 0 := by
    refine Finset.sum_eq_zero fun i _ => Finset.sum_eq_zero fun j _ => ?_
    rw [hsym i j, sub_self, abs_zero]
  simp [is_directed, hz]

/-- An asymmetric pair forces `is_directed = true`: the asymmetry sum is a
sum of nonnegative terms with one strictly positive term. -/
theorem is_directed_eq_true_of_ne {n : ℕ} {W : Fin n → Fin n → ℚ}
    (h : ∃ i j, W i j ≠ W j i) : is_directed W = true := by
  obtain ⟨i, j, hij⟩ := h
  have hpos : 0 < ∑ i, ∑ j, |W i j - W j i| := by
    refine Finset.sum_pos' (fun a _ => Finset.sum_nonneg fun b _ => abs_nonneg _) ?_
    refine ⟨i, Finset.mem_univ i, Finset.sum_pos' (fun b _ => abs_nonneg _) ?_⟩
    exact ⟨j, Finset.mem_univ j, abs_pos.mpr (sub_ne_zero.mpr hij)⟩
  simp [is_directed, ne_of_gt hpos]

/-- C5: `is_directed` is the exact test `sum(|W - Wᵀ|) ≠ 0`: it holds iff the
total absolute asymmetry is nonzero; in particular it is `false` for every
symmetric matrix and `true` as soon as one entry pair differs. -/
theorem is_directed_characterization {n : ℕ} (W : Fin n → Fin n → ℚ) :
    (is_directed W = true ↔ (∑ i, ∑ j, |W i j - W j i|) ≠ 0)
    ∧ ((∀ i j, W i j = W j i) → is_directed W = false)
    ∧ ((∃ i j, W i j ≠ W j i) → is_directed W = true) := by
  refine ⟨?_, is_directed_eq_false_of_symm, is_directed_eq_true_of_ne⟩
  simp [is_directed]

/-- Witness for C5: the directed example `W = [[0,1],[0,0]]` and the
undirected example `W = [[0,1],[1,0]]` from the spec. -/
theorem is_directed_characterization_witness :
    is_directed (fun i j : Fin 2 => if i.val = 0 ∧ j.val = 1 then (1 : ℚ) else 0) = true
    ∧ is_directed (fun i j : Fin 2 => if i ≠ j then (1 : ℚ) else 0) = false :=
  ⟨(is_directed_characterization _).2.2 ⟨0, 1, by decide⟩,
   (is_directed_characterization _).2.1 (by decide)⟩

/-- C3: for every symmetric weight matrix, `compute_laplacian` takes the
undirected combinatorial branch `L = D - W` with `D = diag(rowSum(W))`, and
every row of that Laplacian sums to exactly 0. -/
theorem laplacian_symmetric_rows {n : ℕ} (sqrt : ℚ → ℚ) (W : Fin n → Fin n → ℚ)
    (hsym : ∀ i j, W i j = W j i) :
    compute_laplacian sqrt W .combinatorial
      = .ok (fun i j => (if i = j then ∑ k, W i k else 0) - W i j)
    ∧ ∀ i, (∑ j, ((if i = j then ∑ k, W i k else 0) - W i j)) = 0 := by
  constructor
  · simp [compute_laplacian, is_directed_eq_false_of_symm hsym]
  · intro i
    rw [Finset.sum_sub_distrib, Finset.sum_ite_eq]
    simp

/-- Witness for C3 at the symmetric matrix `W = [[0,2],[2,0]]`. -/
theorem laplacian_symmetric_rows_witness :
    compute_laplacian (fun _ => 0)
        (fun i j : Fin 2 => if i ≠ j then (2 : ℚ) else 0) .combinatorial
      = .ok (fun i j =>
          (if i = j then ∑ k, (fun i j : Fin 2 => if i ≠ j then (2 : ℚ) else 0) i k
            else 0) - (if i ≠ j then (2 : ℚ) else 0)) :=
  (laplacian_symmetric_rows (fun _ => 0) _ (by decide)).1

/-- C4: for every asymmetric weight matrix, the combinatorial Laplacian is
`½(D_out + D_in − W − Wᵀ)` with `D_out = diag(colSum(W))` and
`D_in = diag(rowSum(W))`. -/
theorem laplacian_directed_form {n : ℕ} (sqrt : ℚ → ℚ) (W : Fin n → Fin n → ℚ)
    (hdir : is_directed W = true) :
    compute_laplacian sqrt W .combinatorial
      = .ok (fun i j => (1 / 2) * ((d_out W i j + d_in W i j) - W i j - W j i)) := by
  simp [compute_laplacian, hdir, d_out, d_in]

/-- Witness for C4 at the directed matrix `W = [[0,1],[0,0]]`. -/
theorem laplacian_directed_form_witness :
    compute_laplacian (fun _ => 0)
        (fun i j : Fin 2 => if i.val = 0 ∧ j.val = 1 then (1 : ℚ) else 0) .combinatorial
      = .ok (fun i j =>
          (1 / 2) * ((d_out (fun i j : Fin 2 => if i.val = 0 ∧ j.val = 1 then (1 : ℚ) else 0) i j
            + d_in (fun i j : Fin 2 => if i.val = 0 ∧ j.val = 1 then (1 : ℚ) else 0) i j)
            - (if i.val = 0 ∧ j.val = 1 then (1 : ℚ) else 0)
            - (if j.val = 0 ∧ i.val = 1 then (1 : ℚ) else 0))) :=
  laplacian_directed_form (fun _ => 0) _ (is_directed_eq_true_of_ne ⟨0, 1, by decide⟩)

/-- One step of the traversal of `is_connected` (graph.py lines 441-454):
pop a pending index, and if it is unvisited mark it and push its unvisited
out-neighbours.  Python keeps the pending indices in a `set` of ints and pops
an arbitrary element; the embedding keeps them in a duplicate-free `List ℕ`
and pops the head (no statement below depends on the order).  The initial
stack is the literal `set([0])`, so on a 0-node graph the lookup
`visited[0]` is out of bounds, which numpy raises as an `IndexError`. -/
def dfs_loop {n : ℕ} (A : Fin n → Fin n → Bool) :
    ℕ → List ℕ → (Fin n → Bool) → Res (Fin n → Bool)
  | 0, _, _ => .fuelOut
  | fuel + 1, stack, visited =>
    match stack with
    | [] => .ok visited
    | v :: rest =>
      if h : v < n then
        let vi : Fin n := ⟨v, h⟩
        if visited vi then dfs_loop A fuel rest visited
        else
          let visited1 : Fin n → Bool := fun j => if j = vi then true else visited j
          let nbrs : List ℕ :=
            ((List.finRange n).filter (fun j => A vi j && ! visited1 j)).map Fin.val
          dfs_loop A fuel (nbrs.foldl (fun s x => s.insert x) rest) visited1
      else .err .indexError

/-- The per-matrix loop of `is_connected` (graph.py lines 441-458): traverse
from node 0 for each matrix; if some matrix leaves a node unvisited the
answer is `false`, otherwise `true`. -/
def conn_check {n : ℕ} (mats : List (Fin n → Fin n → Bool)) (fuel : ℕ) : Res Bool :=
  match mats with
  | [] => .ok true
  | A :: rest =>
    match dfs_loop A fuel [0] (fun _ => false) with
    | .ok visited => if ∀ i, visited i = true then conn_check rest fuel else .ok false
    | .err e => .err e
    | .fuelOut => .fuelOut

/-- `is_connected` (graph.py lines 396-461): directed graphs are traversed
once along `A` and once along `Aᵀ`, undirected graphs once.  The matrix is
always square in this embedding, so the shape-mismatch branch is vacuous;
the `recompute` caching is ignored (we model the recomputation itself). -/
def is_connected {n : ℕ} (W : Fin n → Fin n → ℚ) (fuel : ℕ) : Res Bool :=
  conn_check
    (if is_directed W then [adjacency W, fun i j => adjacency W j i] else [adjacency W])
    fuel

/-- The inner component loop of `extract_components` (graph.py lines
547-556): like `dfs_loop` but also accumulating, in pop order, the list of
newly visited nodes. -/
def comp_loop {n : ℕ} (A : Fin n → Fin n → Bool) :
    ℕ → List ℕ → (Fin n → Bool) → List ℕ → Res ((Fin n → Bool) × List ℕ)
  | 0, _, _, _ => .fuelOut
  | fuel + 1, stack, visited, comp =>
    match stack with
    | [] => .ok (visited, comp)
    | v :: rest =>
      if h : v < n then
        let vi : Fin n := ⟨v, h⟩
        if visited vi then comp_loop A fuel rest visited comp
        else
          let visited1 : Fin n → Bool := fun j => if j = vi then true else visited j
          let nbrs : List ℕ :=
            ((List.finRange n).filter (fun j => A vi j && ! visited1 j)).map Fin.val
          comp_loop A fuel (nbrs.foldl (fun s x => s.insert x) rest) visited1 (comp ++ [v])
      else .err .indexError

/-- The outer loop of `extract_components` (graph.py lines 543-565): while
some node is unvisited, seed the inner loop with
`stack = set(np.nonzero(~visited)[0])` — the whole unvisited set — then
record `sorted(comp)` as the `orig_idx` tag of the subgraph built from the
component.  The returned value is the list of `orig_idx` lists; the node
count of each subgraph is the length of its list. -/
def extract_loop {n : ℕ} (A : Fin n → Fin n → Bool) :
    ℕ → (Fin n → Bool) → List (List ℕ) → Res (List (List ℕ))
  | 0, _, _ => .fuelOut
  | fuel + 1, visited, acc =>
    if ∀ i, visited i = true then .ok acc
    else
      let stack : List ℕ := ((List.finRange n).filter (fun i => ! visited i)).map Fin.val
      match comp_loop A fuel stack visited [] with
      | .ok (visited1, comp) =>
          extract_loop A fuel visited1 (acc ++ [List.insertionSort (· ≤ ·) comp])
      | .err e => .err e
      | .fuelOut => .fuelOut

/-- `extract_components` (graph.py lines 503-565): rejects directed graphs
with `NotImplementedError`, otherwise runs the component loop on the
adjacency matrix.  The matrix is always square here, so the
shape-error branch is vacuous. -/
def extract_components {n : ℕ} (W : Fin n → Fin n → ℚ) (fuel : ℕ) :
    Res (List (List ℕ)) :=
  if is_directed W then .err .notImplemented
  else extract_loop (adjacency W) fuel (fun _ => false) []

/-- All index pairs of an `n × n` matrix in row-major order, the order in
which `nonzero()` reports entries. -/
def all_pairs (n : ℕ) : List (Fin n × Fin n) :=
  (List.finRange n) ×ˢ (List.finRange n)

/-- The nonzero entries of `W` in row-major order; `Ne = W.nnz`
(graph.py line 91) is their number. -/
def nnz_pairs {n : ℕ} (W : Fin n → Fin n → ℚ) : List (Fin n × Fin n) :=
  (all_pairs n).filter (fun p => decide (W p.1 p.2 ≠ 0))

/-- The stored edge count `Ne = W.nnz` (graph.py line 91). -/
def edge_count {n : ℕ} (W : Fin n → Fin n → ℚ) : ℕ :=
  (nnz_pairs W).length

/-- The nonzero entries of `sparse.tril(W)`: the nonzero entries whose row
index is at least their column index. -/
def tril_pairs {n : ℕ} (W : Fin n → Fin n → ℚ) : List (Fin n × Fin n) :=
  (nnz_pairs W).filter (fun p => decide (p.2 ≤ p.1))

/-- `get_edge_list` (graph.py lines 696-733): rejects directed graphs with
`NotImplementedError`; otherwise returns `(v_in, v_out, weights)` where
`v_in, v_out = sparse.tril(W).nonzero()` and `weights = W[v_in, v_out]`,
here as one list of triples. -/
def get_edge_list {n : ℕ} (W : Fin n → Fin n → ℚ) :
    Except GErr (List (Fin n × Fin n × ℚ)) :=
  if is_directed W then .error .notImplemented
  else .ok ((tril_pairs W).map (fun p => (p.1, p.2, W p.1 p.2)))

/-- C6: on every directed (asymmetric) weight matrix, the normalized
Laplacian, component extraction and edge-list extraction all fail with the
`NotImplementedError` of the source; none succeeds. -/
theorem directed_ops_unsupported {n : ℕ} (sqrt : ℚ → ℚ) (W : Fin n → Fin n → ℚ)
    (fuel : ℕ) (hdir : is_directed W = true) :
    compute_laplacian sqrt W .normalized = .error .notImplemented
    ∧ extract_components W fuel = .err .notImplemented
    ∧ get_edge_list W = .error .notImplemented := by
  refine ⟨?_, ?_, ?_⟩ <;> simp [compute_laplacian, extract_components, get_edge_list, hdir]

/-- Witness for C6 at the directed matrix `W = [[0,1],[0,0]]`. -/
theorem directed_ops_unsupported_witness :
    compute_laplacian (fun _ => 0)
        (fun i j : Fin 2 => if i.val = 0 ∧ j.val = 1 then (1 : ℚ) else 0) .normalized
      = .error .notImplemented
    ∧ extract_components
        (fun i j : Fin 2 => if i.val = 0 ∧ j.val = 1 then (1 : ℚ) else 0) 5
      = .err .notImplemented
    ∧ get_edge_list (fun i j : Fin 2 => if i.val = 0 ∧ j.val = 1 then (1 : ℚ) else 0)
      = .error .notImplemented :=
  directed_ops_unsupported (fun _ => 0) _ 5 (is_directed_eq_true_of_ne ⟨0, 1, by decide⟩)

/-- On a 0-node graph `is_connected` hits the out-of-bounds lookup
`visited[0]`: the traversal stack is the literal `set([0])` even though no
node 0 exists, so numpy raises an `IndexError` instead of returning. -/
theorem is_connected_zero_nodes (W : Fin 0 → Fin 0 → ℚ) :
    is_connected W 3 = .err .indexError := by
  have hund : is_directed W = false :=
    is_directed_eq_false_of_symm fun i j => i.elim0
  rw [is_connected, hund]
  simp [conn_check, dfs_loop]

/-- C2 (amended): `is_connected` returns `true` on every 1-node graph, but
on a 0-node graph the traversal indexes `visited[0]` out of bounds and
raises an `IndexError` rather than returning `true`.  Fuel 3 covers the two
loop steps the 1-node traversal needs. -/
theorem is_connected_trivial_graphs :
    (∀ W : Fin 1 → Fin 1 → ℚ, is_connected W 3 = .ok true)
    ∧ (∀ W : Fin 0 → Fin 0 → ℚ, is_connected W 3 = .err .indexError) := by
  refine ⟨fun W => ?_, is_connected_zero_nodes⟩
  have hund : is_directed W = false :=
    is_directed_eq_false_of_symm fun i j => by rw [Fin.eq_zero i, Fin.eq_zero j]
  rw [is_connected, hund]
  simp only [Bool.false_eq_true, if_false, conn_check, dfs_loop]
  simp [List.filter_cons, List.finRange, Fin.forall_fin_one]

/-- Counterexample to C2 as stated: on the (unique) 0-node weight matrix,
`is_connected` raises an `IndexError`; it does not return `true`. -/
theorem is_connected_zero_nodes_cex :
    is_connected (fun _ _ => (0 : ℚ) : Fin 0 → Fin 0 → ℚ) 3 = .err .indexError
    ∧ is_connected (fun _ _ => (0 : ℚ) : Fin 0 → Fin 0 → ℚ) 3 ≠ .ok true := by
  refine ⟨is_connected_zero_nodes _, ?_⟩
  rw [is_connected_zero_nodes _]
  decide

/-- The 5-node weight matrix made of two disjoint unit-weight cliques,
on nodes `{0,1,2}` and `{3,4}`. -/
def cliqueW5 : Fin 5 → Fin 5 → ℚ :=
  fun i j => if i ≠ j ∧ (i.val < 3 ↔ j.val < 3) then 1 else 0

/-- The boolean adjacency matrix of `cliqueW5`. -/
def cliqueA5 : Fin 5 → Fin 5 → Bool :=
  fun i j => decide (i ≠ j ∧ (i.val < 3 ↔ j.val < 3))

/-- C7: on the 5-node graph made of two disjoint cliques of sizes 3 and 2,
`extract_components` returns a single subgraph whose `orig_idx` list is all
of `[0,1,2,3,4]` — not two subgraphs partitioning the components — because
the inner loop is seeded with the whole unvisited set
(`stack = set(np.nonzero(~visited)[0])`, graph.py line 544) instead of a
single node, so every unvisited node is popped and appended to the first
component.  The same graph is reported disconnected by `is_connected`,
confirming that the single returned "component" is not connected. -/
theorem extract_components_two_cliques :
    extract_components cliqueW5 20 = .ok [[0, 1, 2, 3, 4]]
    ∧ is_connected cliqueW5 20 = .ok false := by
  have hund : is_directed cliqueW5 = false := is_directed_eq_false_of_symm (by decide)
  have hA : adjacency cliqueW5 = cliqueA5 :=
    funext fun i => funext fun j => by revert i j; decide
  constructor
  · rw [extract_components, hund, hA]
    decide
  · rw [is_connected, hund, hA]
    decide

/-- Every index pair of the matrix occurs in the row-major enumeration. -/
theorem mem_all_pairs {n : ℕ} (p : Fin n × Fin n) : p ∈ all_pairs n := by
  obtain ⟨a, b⟩ := p
  exact List.mem_product.mpr ⟨List.mem_finRange a, List.mem_finRange b⟩

/-- The row-major enumeration of index pairs has no duplicates. -/
theorem nodup_all_pairs (n : ℕ) : (all_pairs n).Nodup :=
  (List.nodup_finRange n).product (List.nodup_finRange n)

/-- C10: on every undirected graph, `get_edge_list` returns exactly the
lower-triangular nonzero entries: every returned pair `(v_in, v_out)`
satisfies `v_out ≤ v_in`, a pair appears iff it is a lower-triangular
nonzero entry (so each undirected edge appears exactly once, through its
unique representative with `v_in ≥ v_out`), the list has no duplicates, and
its length is at most the stored edge count `Ne`, which counts both stored
directions of each edge. -/
theorem get_edge_list_lower_triangular {n : ℕ} (W : Fin n → Fin n → ℚ)
    (hsym : ∀ i j, W i j = W j i) :
    get_edge_list W = .ok ((tril_pairs W).map (fun p => (p.1, p.2, W p.1 p.2)))
    ∧ (∀ i j : Fin n, (i, j) ∈ tril_pairs W ↔ (j ≤ i ∧ W i j ≠ 0))
    ∧ (tril_pairs W).Nodup
    ∧ (tril_pairs W).length ≤ edge_count W := by
  refine ⟨?_, fun i j => ?_, ?_, ?_⟩
  · rw [get_edge_list, is_directed_eq_false_of_symm hsym]
    simp
  · simp only [tril_pairs, nnz_pairs, List.mem_filter, decide_eq_true_eq]
    constructor
    · rintro ⟨⟨-, hw⟩, hle⟩
      exact ⟨hle, hw⟩
    · rintro ⟨hle, hw⟩
      exact ⟨⟨mem_all_pairs _, hw⟩, hle⟩
  · exact ((nodup_all_pairs n).filter _).filter _
  · exact List.length_filter_le _ _

/-- Witness for C10 at the symmetric matrix `W = [[0,1],[1,0]]`: the single
undirected edge is returned once, as the lower-triangular entry `(1,0)`. -/
theorem get_edge_list_lower_triangular_witness :
    get_edge_list (fun i j : Fin 2 => if i ≠ j then (1 : ℚ) else 0)
      = .ok ((tril_pairs (fun i j : Fin 2 => if i ≠ j then (1 : ℚ) else 0)).map
          (fun p => (p.1, p.2, if p.1 ≠ p.2 then (1 : ℚ) else 0))) :=
  (get_edge_list_lower_triangular _ (by decide)).1

/-- Node positions: an `N × dim` coordinate array. -/
def Pos (n dim : ℕ) : Type := Fin n → Fin dim → ℚ

/-- `np.max` / per-axis `.max()` of a list of values.  numpy raises on an
empty input, so the `[]` case below is unreachable whenever the source
evaluates it; it is given the dummy value 0. -/
def np_max_list (l : List ℚ) : ℚ :=
  match l with
  | [] => 0
  | x :: xs => xs.foldl max x

/-- `np.max(pos)` over all entries of a coordinate array (row-major). -/
def np_max {n dim : ℕ} (pos : Pos n dim) : ℚ :=
  np_max_list ((List.finRange n).flatMap (fun i => (List.finRange dim).map (fun d => pos i d)))

/-- The pairwise distance of `_sparse_fruchterman_reingold` (graph.py lines
855-859): Euclidean distance of rows `i` and `j`, floored at 0.01. -/
def fr_distance {n dim : ℕ} (sqrt : ℚ → ℚ) (pos : Pos n dim) (i j : Fin n) : ℚ :=
  let raw := sqrt (∑ d, (pos i d - pos j d) ^ 2)
  if raw < 1 / 100 then 1 / 100 else raw

/-- The displacement accumulated for node `i` on axis `d` in one iteration
(graph.py lines 849-864): zero for fixed nodes (the `continue`), otherwise
the sum over all nodes of the repulsive minus attractive force along the
pairwise direction. -/
def fr_displacement {n dim : ℕ} (sqrt : ℚ → ℚ) (A : Fin n → Fin n → Bool) (k : ℚ)
    (fixed : Finset (Fin n)) (pos : Pos n dim) (i : Fin n) (d : Fin dim) : ℚ :=
  if i ∈ fixed then 0
  else ∑ j, (pos i d - pos j d) *
    (k * k / fr_distance sqrt pos i j ^ 2
      - (if A i j then 1 else 0) * fr_distance sqrt pos i j / k)

/-- The per-node displacement magnitude (graph.py lines 866-867): Euclidean
norm of the displacement, replaced by 0.1 when below 0.01. -/
def fr_length {n dim : ℕ} (sqrt : ℚ → ℚ) (A : Fin n → Fin n → Bool) (k : ℚ)
    (fixed : Finset (Fin n)) (pos : Pos n dim) (i : Fin n) : ℚ :=
  let raw := sqrt (∑ d, fr_displacement sqrt A k fixed pos i d ^ 2)
  if raw < 1 / 100 then 1 / 10 else raw

/-- One cooling iteration (graph.py lines 848-868): every node moves by its
displacement scaled by `t` over its magnitude. -/
def fr_step {n dim : ℕ} (sqrt : ℚ → ℚ) (A : Fin n → Fin n → Bool) (k : ℚ)
    (fixed : Finset (Fin n)) (t : ℚ) (pos : Pos n dim) : Pos n dim :=
  fun i d =>
    pos i d + fr_displacement sqrt A k fixed pos i d * t / fr_length sqrt A k fixed pos i

/-- The iteration loop with the linear cooling schedule `t -= dt`. -/
def fr_loop {n dim : ℕ} (sqrt : ℚ → ℚ) (A : Fin n → Fin n → Bool) (k : ℚ)
    (fixed : Finset (Fin n)) (dt : ℚ) : ℕ → ℚ → Pos n dim → Pos n dim
  | 0, _, pos => pos
  | m + 1, t, pos => fr_loop sqrt A k fixed dt m (t - dt) (fr_step sqrt A k fixed t pos)

/-- `_sparse_fruchterman_reingold` (graph.py lines 824-872).  The random
initial positions drawn when `pos is None` are supplied by the caller as the
already-resolved `pos` argument; `k` defaults to `sqrt(1/N)`; `t` starts at
0.1 and cools by `dt = 0.1/(iterations+1)`. -/
def sparse_fruchterman_reingold {n dim : ℕ} (sqrt : ℚ → ℚ) (A : Fin n → Fin n → Bool)
    (kopt : Option ℚ) (pos : Pos n dim) (fixed : Finset (Fin n)) (iterations : ℕ) :
    Pos n dim :=
  fr_loop sqrt A (kopt.getD (sqrt (1 / n))) fixed (1 / 10 / (iterations + 1))
    iterations (1 / 10) pos

/-- The per-axis mean of a coordinate array. -/
def axis_mean {n dim : ℕ} (pos : Pos n dim) (d : Fin dim) : ℚ := (∑ i, pos i d) / n

/-- The first loop of `_rescale_layout` (graph.py lines 880-882): shift each
axis to mean zero. -/
def centered_pos {n dim : ℕ} (pos : Pos n dim) : Pos n dim :=
  fun i d => pos i d - axis_mean pos d

/-- `pos[:, d].max()` of the centered array for one axis. -/
def axis_max {n dim : ℕ} (pos : Pos n dim) (d : Fin dim) : ℚ :=
  np_max_list ((List.finRange n).map (fun i => pos i d))

/-- The limit accumulated by `_rescale_layout` (graph.py lines 879-882):
`lim` starts at 0 and takes the max with each post-centering axis maximum. -/
def rescale_lim {n dim : ℕ} (pos : Pos n dim) : ℚ :=
  (List.finRange dim).foldl (fun l d => max (axis_max (centered_pos pos) d) l) 0

/-- `_rescale_layout` (graph.py lines 875-886): center each axis, then
multiply every axis by `scale / lim`.  There is no guard against `lim = 0`;
the division is performed unconditionally. -/
def rescale_layout {n dim : ℕ} (scale : ℚ) (pos : Pos n dim) : Pos n dim :=
  fun i d => centered_pos pos i d * (scale / rescale_lim pos)

/-- `_fruchterman_reingold_layout` (graph.py lines 786-821).  `center`
defaults to the origin and is shape-checked by the source; the embedding
types it correctly by construction.  When `pos` is supplied, the random
base array is overwritten row by row with `pos`, so `posArr` is exactly the
supplied positions; when it is `None`, the caller-resolved random draw
`randPos` is used.  The final rescale-and-center runs exactly when `fixed`
is empty. -/
def fruchterman_reingold_layout {n dim : ℕ} (sqrt : ℚ → ℚ) (A : Fin n → Fin n → Bool)
    (kopt : Option ℚ) (posOpt : Option (Pos n dim)) (fixed : Finset (Fin n))
    (iterations : ℕ) (scale : ℚ) (center : Fin dim → ℚ) (randPos : Pos n dim) :
    Pos n dim :=
  let domSize : ℚ := match posOpt with | none => 1 | some p => np_max p
  let posArr : Pos n dim := match posOpt with | none => randPos | some p => p
  let k : Option ℚ :=
    match kopt with
    | some v => some v
    | none => if fixed.Nonempty then some (domSize / sqrt n) else none
  let out := sparse_fruchterman_reingold sqrt A k posArr fixed iterations
  if fixed.card = 0 then fun i d => rescale_layout scale out i d + center d else out

/-- C1 (amended): with `iterations = 0` the force loop applies no
displacement — `_sparse_fruchterman_reingold` returns the initial positions
unchanged — but when no nodes are fixed the layout still applies the final
rescale-and-center step, so `layout(dim, iterations=0)` returns the
rescaled-and-centered initial positions, not the initial positions
themselves. -/
theorem layout_zero_iterations {n dim : ℕ} (sqrt : ℚ → ℚ) (A : Fin n → Fin n → Bool)
    (kopt : Option ℚ) (fixed : Finset (Fin n)) (init : Pos n dim)
    (scale : ℚ) (center : Fin dim → ℚ) :
    sparse_fruchterman_reingold sqrt A kopt init fixed 0 = init
    ∧ fruchterman_reingold_layout sqrt A kopt none ∅ 0 scale center init
        = fun i d => rescale_layout scale init i d + center d := by
  constructor
  · rfl
  · simp only [fruchterman_reingold_layout, sparse_fruchterman_reingold, fr_loop,
      Finset.card_empty, if_true]

/-- A concrete 2-node, 2-dimensional initial position array: node 0 at
`(0,0)`, node 1 at `(1,0)`. -/
def initPos2 : Pos 2 2 := fun i d => if i = 0 then 0 else if d = 0 then 1 else 0

/-- The adjacency matrix of the single-edge graph on two nodes. -/
def pathA2 : Fin 2 → Fin 2 → Bool := fun i j => decide (i ≠ j)

/-- Counterexample to C1 as stated: with `iterations = 0`, no fixed nodes
and initial positions `(0,0), (1,0)`, the layout returns node 0 at `(-1,0)`
(the rescale-and-center step moved it), not at its initial position. -/
theorem layout_zero_iterations_cex :
    fruchterman_reingold_layout (fun _ => 0) pathA2 none none ∅ 0 1 (fun _ => 0) initPos2
      ≠ initPos2 := by
  have hmean : axis_mean initPos2 0 = 1 / 2 := by
    rw [axis_mean, Fin.sum_univ_two]
    norm_num [initPos2]
  have hc00 : centered_pos initPos2 0 0 = -(1 / 2) := by
    rw [centered_pos, hmean]
    norm_num [initPos2]
  have hc10 : centered_pos initPos2 1 0 = 1 / 2 := by
    rw [centered_pos, hmean]
    norm_num [initPos2]
  have hc1 : ∀ i, centered_pos initPos2 i 1 = 0 := by
    intro i
    have hmean1 : axis_mean initPos2 1 = 0 := by
      rw [axis_mean, Fin.sum_univ_two]
      norm_num [initPos2]
    fin_cases i <;> rw [centered_pos, hmean1] <;> norm_num [initPos2]
  have hfr2 : List.finRange 2 = [0, 1] := by decide
  have hlim : rescale_lim initPos2 = 1 / 2 := by
    rw [rescale_lim, hfr2]
    simp only [List.foldl_cons, List.foldl_nil, axis_max, hfr2, List.map_cons,
      List.map_nil, np_max_list, hc00, hc10, hc1]
    norm_num
  intro h
  have h00 := congrFun (congrFun h 0) 0
  rw [fruchterman_reingold_layout] at h00
  simp only [sparse_fruchterman_reingold, fr_loop, Finset.card_empty, if_true,
    rescale_layout, hlim, hc00] at h00
  norm_num [initPos2] at h00

/-- A node in the fixed set accumulates zero displacement, so one iteration
moves no node when every node is fixed: the update adds
`0 * t / length = 0` to every coordinate. -/
theorem fr_step_all_fixed {n dim : ℕ} (sqrt : ℚ → ℚ) (A : Fin n → Fin n → Bool)
    (k t : ℚ) (pos : Pos n dim) :
    fr_step sqrt A k Finset.univ t pos = pos := by
  funext i d
  rw [fr_step, fr_displacement, if_pos (Finset.mem_univ i), zero_mul, zero_div, add_zero]

/-- The whole iteration loop is the identity when every node is fixed. -/
theorem fr_loop_all_fixed {n dim : ℕ} (sqrt : ℚ → ℚ) (A : Fin n → Fin n → Bool)
    (k dt : ℚ) : ∀ (m : ℕ) (t : ℚ) (pos : Pos n dim),
    fr_loop sqrt A k Finset.univ dt m t pos = pos := by
  intro m
  induction m with
  | zero => intro t pos; rfl
  | succ m ih =>
    intro t pos
    rw [fr_loop, fr_step_all_fixed]
    exact ih _ _

/-- C8: when initial positions are supplied and every node is fixed, the
layout returns exactly the supplied positions (no iteration moves a node,
and the rescale step is skipped); and the rescale-and-center step is skipped
exactly when the fixed set is non-empty — for any non-empty fixed set the
layout returns the raw output of `_sparse_fruchterman_reingold`, with the
spring constant defaulting to `np.max(pos) / sqrt(N)`. -/
theorem layout_all_fixed {n dim : ℕ} (sqrt : ℚ → ℚ) (A : Fin n → Fin n → Bool)
    (kopt : Option ℚ) (p : Pos n dim) (iterations : ℕ) (scale : ℚ)
    (center : Fin dim → ℚ) (randPos : Pos n dim) :
    fruchterman_reingold_layout sqrt A kopt (some p) Finset.univ iterations scale center
        randPos = p
    ∧ ∀ fixed : Finset (Fin n), fixed ≠ ∅ →
        fruchterman_reingold_layout sqrt A kopt (some p) fixed iterations scale center
            randPos
          = sparse_fruchterman_reingold sqrt A
              (some (kopt.getD (np_max p / sqrt n))) p fixed iterations := by
  constructor
  · rcases n with - | m
    · funext i
      exact i.elim0
    · have hcard : (Finset.univ : Finset (Fin (m + 1))).card ≠ 0 := by
        simp [Finset.card_univ]
      simp only [fruchterman_reingold_layout, if_neg hcard, sparse_fruchterman_reingold]
      cases kopt <;> simp [fr_loop_all_fixed]
  · intro fixed hne
    have hcard : fixed.card ≠ 0 := fun h => hne (Finset.card_eq_zero.mp h)
    have hnonempty : fixed.Nonempty := Finset.nonempty_iff_ne_empty.mpr hne
    simp only [fruchterman_reingold_layout, if_neg hcard]
    cases kopt <;> simp [hnonempty, Option.getD]

/-- Witness for C8 on a 1-node, 1-dimensional graph: with all nodes fixed
the supplied position is returned unchanged, and with the non-empty fixed
set `{0}` the rescale step is skipped. -/
theorem layout_all_fixed_witness :
    fruchterman_reingold_layout (fun _ => 0) (fun _ _ : Fin 1 => false) none
        (some (fun _ _ => (5 : ℚ) : Pos 1 1)) Finset.univ 7 1 (fun _ => 0) (fun _ _ => 0)
      = (fun _ _ => (5 : ℚ) : Pos 1 1)
    ∧ fruchterman_reingold_layout (fun _ => 0) (fun _ _ : Fin 1 => false) none
        (some (fun _ _ => (5 : ℚ) : Pos 1 1)) {0} 7 1 (fun _ => 0) (fun _ _ => 0)
      = sparse_fruchterman_reingold (fun _ => 0) (fun _ _ : Fin 1 => false)
          (some ((none : Option ℚ).getD
            (np_max (fun _ _ => (5 : ℚ) : Pos 1 1) / (fun _ : ℚ => (0 : ℚ)) (1 : ℕ))))
          (fun _ _ => (5 : ℚ) : Pos 1 1) {0} 7 :=
  ⟨(layout_all_fixed (fun _ => 0) _ none _ 7 1 _ _).1,
   (layout_all_fixed (fun _ => 0) _ none _ 7 1 _ _).2 {0} (by decide)⟩

/-- On a 1-node coordinate array every centered coordinate is 0: the single
position equals its own axis mean. -/
theorem centered_pos_one_node {dim : ℕ} (q : Pos 1 dim) (i : Fin 1) (d : Fin dim) :
    centered_pos q i d = 0 := by
  rw [centered_pos, axis_mean, Fin.sum_univ_one, Fin.eq_zero i]
  simp

/-- On a 1-node coordinate array the accumulated rescale limit is exactly 0:
every post-centering axis maximum is 0 and the accumulator starts at 0. -/
theorem rescale_lim_one_node {dim : ℕ} (q : Pos 1 dim) : rescale_lim q = 0 := by
  have hax : ∀ d, axis_max (centered_pos q) d = 0 := by
    intro d
    have hfr : List.finRange 1 = [0] := by decide
    rw [axis_max, hfr]
    simp [np_max_list, centered_pos_one_node]
  rw [rescale_lim]
  generalize List.finRange dim = l
  induction l with
  | nil => rfl
  | cons d l ih => rw [List.foldl_cons, hax d, max_self]; exact ih

/-- C9: the final rescale divides each axis by the accumulated
post-centering maximum with no zero guard; on any 1-node coordinate array
(where all positions on every axis coincide) that divisor is exactly 0, so
`_rescale_layout` performs `scale / 0` — in the IEEE float arithmetic of the
source this makes the returned coordinates non-finite (`inf`/`NaN`), which
exact rational arithmetic cannot represent; the embedding exhibits the
division by the proven-zero divisor.  The layout applies this unguarded
division to the force-loop output whenever no node is fixed. -/
theorem rescale_divisor_zero_one_node {dim : ℕ} (pos : Fin 1 → Fin dim → ℚ)
    (scale : ℚ) :
    rescale_lim pos = 0
    ∧ rescale_layout scale pos = (fun i d => centered_pos pos i d * (scale / 0))
    ∧ ∀ (sqrt : ℚ → ℚ) (A : Fin 1 → Fin 1 → Bool) (kopt : Option ℚ)
        (posOpt : Option (Pos 1 dim)) (iterations : ℕ) (center : Fin dim → ℚ)
        (randPos : Pos 1 dim),
        fruchterman_reingold_layout sqrt A kopt posOpt ∅ iterations scale center randPos
          = fun i d =>
              centered_pos
                  (sparse_fruchterman_reingold sqrt A kopt (posOpt.getD randPos) ∅
                    iterations) i d
                * (scale / 0) + center d := by
  refine ⟨rescale_lim_one_node pos, ?_, ?_⟩
  · funext i d
    rw [rescale_layout, rescale_lim_one_node]
  · intro sqrt A kopt posOpt iterations center randPos
    simp only [fruchterman_reingold_layout, Finset.card_empty, if_true,
      Finset.not_nonempty_empty, if_false]
    cases kopt <;> cases posOpt <;>
      · funext i d
        rw [rescale_layout, rescale_lim_one_node]
        rfl
